import Mathlib

/-!
Verification of `aws_chain_secrets/secrets_manager.py` (class `SecretsManager`).

The embedding models Python values, insertion-ordered dicts (as association
lists), and the `SecretsManager` state consisting of the declared secret names
and the per-name bundles.  `ChainMap(*reversed(self._secrets.values()))` is a
live view over the bundle dicts, so the combined lookup is modelled as a
function of the current `_secrets` contents.
-/

namespace AwsChainSecrets

/-- Python runtime values as far as this module manipulates them.
`nullInst i` models the i-th created instance of the module's `Null` class;
the module-level singleton `null = Null()` is `nullInst 0`.  `pyNone` is
Python's `None`. -/
inductive Value where
  | str (s : String)
  | int (n : Int)
  | float (q : Rat)
  | bool (b : Bool)
  | pyNone
  | nullInst (i : Nat)
deriving DecidableEq

/-- `isinstance(v, Null)` — true of every instance of the `Null` class, not
only of the module singleton `null`. -/
def isNullInstance : Value → Bool
  | Value.nullInst _ => true
  | _ => false

/-- A Python dict with string keys, in insertion order. -/
abbrev Dict := List (String × Value)

/-- Python `d[k]` as an option (first entry with key `k`; keys are unique in
any dict this module builds, so first-match is the dict lookup). -/
def dictLookup (d : Dict) (k : String) : Option Value :=
  match d with
  | [] => Option.none
  | (k2, v) :: rest => if k2 = k then Option.some v else dictLookup rest k

/-- Python `d[k] = v`: overwrite in place if `k` is present (keeping its
position), else append at the end. -/
def dictInsert (d : Dict) (k : String) (v : Value) : Dict :=
  match d with
  | [] => [(k, v)]
  | (k2, v2) :: rest =>
      if k2 = k then (k2, v) :: rest else (k2, v2) :: dictInsert rest k v

/-- Python `d.update(other)`: insert every entry of `other` in order. -/
def dictUpdate (d other : Dict) : Dict :=
  other.foldl (fun acc p => dictInsert acc p.1 p.2) d

/-- Helper for `pyDedup`: drop the elements already seen. -/
def pyDedupAux (seen : List String) : List String → List String
  | [] => []
  | a :: l => if a ∈ seen then pyDedupAux seen l else a :: pyDedupAux (a :: seen) l

/-- Key order of a Python dict comprehension over a possibly-repeating list:
each key keeps the position of its first occurrence. -/
def pyDedup (l : List String) : List String :=
  pyDedupAux [] l

/-- State of a `SecretsManager`: the declared names (`self.secret_names`, a
tuple which may repeat a name) and `self._secrets`, the insertion-ordered
dict mapping each declared name to its bundle dict. -/
structure SecretsManager where
  secret_names : List String
  _secrets : List (String × Dict)
deriving DecidableEq

/-- `self._secrets[name]` as an option. -/
def lookupBundle (ss : List (String × Dict)) (name : String) : Option Dict :=
  match ss with
  | [] => Option.none
  | (n, d) :: rest => if n = name then Option.some d else lookupBundle rest name

/-- Rewrite the bundle stored under `name` (no-op when `name` is absent;
`fetch` only ever touches declared names, which are always present). -/
def mapBundle (ss : List (String × Dict)) (name : String) (f : Dict → Dict) :
    List (String × Dict) :=
  match ss with
  | [] => []
  | (n, d) :: rest =>
      if n = name then (n, f d) :: mapBundle rest name f
      else (n, d) :: mapBundle rest name f

instance {ε α : Type} [DecidableEq ε] [DecidableEq α] : DecidableEq (Except ε α)
  | Except.error e, Except.error f =>
      if h : e = f then Decidable.isTrue (by rw [h])
      else Decidable.isFalse (fun hc => h (by injection hc))
  | Except.error _, Except.ok _ => Decidable.isFalse (fun hc => Except.noConfusion hc)
  | Except.ok _, Except.error _ => Decidable.isFalse (fun hc => Except.noConfusion hc)
  | Except.ok x, Except.ok y =>
      if h : x = y then Decidable.isTrue (by rw [h])
      else Decidable.isFalse (fun hc => h (by injection hc))

/-- `__init__`: one empty bundle per declared name
(`self._secrets = {secret_name: {} for secret_name in secret_names}`). -/
def SecretsManager.init (secret_names : List String) : SecretsManager :=
  { secret_names := secret_names
    _secrets := (pyDedup secret_names).map (fun n => (n, [])) }

/-- Well-formedness: `_secrets` holds exactly the keys produced by the
`__init__` dict comprehension, in order.  `init` establishes it and every
operation preserves it. -/
def SecretsManager.wf (sm : SecretsManager) : Prop :=
  sm._secrets.map Prod.fst = pyDedup sm.secret_names

instance (sm : SecretsManager) : Decidable sm.wf := by
  unfold SecretsManager.wf
  infer_instance

/-- Lookup across an ordered list of dicts: the first dict containing the
key wins, as in `collections.ChainMap`. -/
def chainLookup (ds : List Dict) (k : String) : Option Value :=
  match ds with
  | [] => Option.none
  | d :: rest =>
      match dictLookup d k with
      | Option.some v => Option.some v
      | Option.none => chainLookup rest k

/-- Lookup in `self._combined = ChainMap(*reversed(self._secrets.values()))`:
the ChainMap holds references to the live bundle dicts, last-declared first,
and returns the first hit. -/
def SecretsManager.combined (sm : SecretsManager) (k : String) : Option Value :=
  chainLookup (sm._secrets.map Prod.snd).reverse k

/-- Casting target shapes (spec §4.2): text, integer, floating-point,
boolean, or pass-through. -/
inductive CastType where
  | text
  | integer
  | float
  | boolean
  | passthrough
deriving DecidableEq

/-- Failure of `cast` (spec §7 `CastError`). -/
inductive CastError where
  | castError
deriving DecidableEq

/-- ASCII lowercasing of a character code, for case-insensitive matching. -/
def charLowerNat (c : Char) : Nat :=
  if 65 ≤ c.toNat ∧ c.toNat ≤ 90 then c.toNat + 32 else c.toNat

/-- Case-insensitive comparison of character lists. -/
def eqIgnoreCase : List Char → List Char → Bool
  | [], [] => true
  | c :: a, d :: b => (charLowerNat c == charLowerNat d) && eqIgnoreCase a b
  | _, _ => false

/-- Boolean-from-text recognition table (spec §4.2): case-insensitive
"true"/"false", "1"/"0", "yes"/"no". -/
def boolOfText (s : String) : Option Bool :=
  let cs := s.toList
  if eqIgnoreCase cs "true".toList ∨ eqIgnoreCase cs "1".toList
      ∨ eqIgnoreCase cs "yes".toList then
    Option.some true
  else if eqIgnoreCase cs "false".toList ∨ eqIgnoreCase cs "0".toList
      ∨ eqIgnoreCase cs "no".toList then
    Option.some false
  else Option.none

/-- Digit run to a number; fails on a non-digit or an empty run. -/
def digitsToNat (cs : List Char) : Option Nat :=
  match cs with
  | [] => Option.none
  | _ =>
      cs.foldl
        (fun acc c =>
          match acc with
          | Option.some a => if c.isDigit then Option.some (a * 10 + (c.toNat - 48)) else Option.none
          | Option.none => Option.none)
        (Option.some 0)

/-- Integer-looking text: optional sign, then digits. -/
def parseIntText (s : String) : Option Int :=
  match s.toList with
  | '-' :: rest => (digitsToNat rest).map (fun n => -(n : Int))
  | '+' :: rest => (digitsToNat rest).map (fun n => (n : Int))
  | cs => (digitsToNat cs).map (fun n => (n : Int))

/-- Split a character list at the first dot. -/
def splitAtDot : List Char → List Char × Option (List Char)
  | [] => ([], Option.none)
  | c :: rest =>
      if c = '.' then ([], Option.some rest)
      else
        let p := splitAtDot rest
        (c :: p.1, p.2)

/-- Float-looking text: optional sign, digits, optional dot and digits; the
value is the exact decimal it denotes. -/
def parseFloatText (s : String) : Option Rat :=
  let body : List Char → Option Rat := fun cs =>
    let p := splitAtDot cs
    match p.2 with
    | Option.none => (digitsToNat p.1).map (fun n => mkRat (Int.ofNat n) 1)
    | Option.some fp =>
        match digitsToNat p.1, digitsToNat fp with
        | Option.some a, Option.some b =>
            Option.some (mkRat (Int.ofNat (a * 10 ^ fp.length + b)) (10 ^ fp.length))
        | _, _ => Option.none
  match s.toList with
  | '-' :: rest => (body rest).map (fun q => -q)
  | '+' :: rest => body rest
  | cs => body cs

/-- Truncation toward zero, as Python `int(float)`. -/
def ratTrunc (q : Rat) : Int :=
  if 0 ≤ q then q.floor else -(Rat.floor (-q))

/-- Modelled from the spec: the repository file `aws_chain_secrets/caster.py`
(function `cast`, imported at `secrets_manager.py` line 8) is not under
`src/`.  Following spec §4.2: pass-through is the identity; boolean casting
from text recognizes case-insensitively "true"/"false", "1"/"0", "yes"/"no"
and fails with `CastError` on unrecognized text; numeric casting succeeds on
numeric-looking text or an existing number and otherwise fails with
`CastError`; casting to text renders the scalar as text. -/
def cast (value : Value) (castTo : CastType) : Except CastError Value :=
  match castTo with
  | CastType.passthrough => Except.ok value
  | CastType.text =>
      match value with
      | Value.str s => Except.ok (Value.str s)
      | Value.int n => Except.ok (Value.str (toString n))
      | Value.float q => Except.ok (Value.str (toString q))
      | Value.bool b => Except.ok (Value.str (if b then "True" else "False"))
      | _ => Except.error CastError.castError
  | CastType.boolean =>
      match value with
      | Value.bool b => Except.ok (Value.bool b)
      | Value.str s =>
          match boolOfText s with
          | Option.some b => Except.ok (Value.bool b)
          | Option.none => Except.error CastError.castError
      | _ => Except.error CastError.castError
  | CastType.integer =>
      match value with
      | Value.int n => Except.ok (Value.int n)
      | Value.float q => Except.ok (Value.int (ratTrunc q))
      | Value.str s =>
          match parseIntText s with
          | Option.some n => Except.ok (Value.int n)
          | Option.none => Except.error CastError.castError
      | _ => Except.error CastError.castError
  | CastType.float =>
      match value with
      | Value.float q => Except.ok (Value.float q)
      | Value.int n => Except.ok (Value.float (n : Rat))
      | Value.str s =>
          match parseFloatText s with
          | Option.some q => Except.ok (Value.float q)
          | Option.none => Except.error CastError.castError
      | _ => Except.error CastError.castError

/-- Errors that `get` can raise: the `KeyError` of line 66 (carrying the
missing key and the hint text appended after it), or a propagated
`CastError` from line 68. -/
inductive GetError where
  | keyNotFound (key : String) (hint : String)
  | castFailure (e : CastError)
deriving DecidableEq

/-- The hint appended after `repr(key)` in the `KeyError` message of
line 66. -/
def missingKeyHint : String :=
  "not found. Please check secret value in AWS Secrets Manager."

/-- Propagation of a cast failure out of `get`. -/
def castResult (r : Except CastError Value) : Except GetError Value :=
  match r with
  | Except.ok v => Except.ok v
  | Except.error e => Except.error (GetError.castFailure e)

/-- `SecretsManager.get` (lines 54-68).  The Python defaults are
`default=null` (i.e. `Value.nullInst 0`) and `casting_type=str`
(i.e. `CastType.text`); callers pass them explicitly here. -/
def SecretsManager.get (sm : SecretsManager) (key : String) (default : Value)
    (casting_type : CastType) : Except GetError Value :=
  match sm.combined key with
  | Option.some v => castResult (cast v casting_type)
  | Option.none =>
      if isNullInstance default then
        Except.error (GetError.keyNotFound key missingKeyHint)
      else
        Except.ok default

/-- `SecretsManager.set` (lines 70-77):
`self._secrets[secret_name][key] = value`.  The first subscript raises
`KeyError secret_name` when the name was not declared, before any mutation;
the error value carries the offending name. -/
def SecretsManager.set (sm : SecretsManager) (secret_name : String) (key : String)
    (value : Value) : Except String SecretsManager :=
  match lookupBundle sm._secrets secret_name with
  | Option.none => Except.error secret_name
  | Option.some _ =>
      Except.ok
        { sm with
          _secrets := mapBundle sm._secrets secret_name (fun d => dictInsert d key value) }

/-- The exception type that `_get_secrets` (lines 103-115) raises:
`SecretsManagerException.from_code(e.response['Error']['Code'])`.  Modelled
from the spec: `aws_chain_secrets/exceptions.py` is not under `src/`; per
spec §6-§7 the transport error code is mapped into a store-error taxonomy,
modelled here as carrying the originating code. -/
inductive SecretsManagerException where
  | fromCode (code : String)
deriving DecidableEq

/-- The remote store as `fetch` observes it through `_get_secrets`: per name,
either the parsed JSON object or the mapped exception.  The transport call
and JSON decoding themselves (botocore, `json.loads`, base64) are external
collaborators. -/
abbrev Store := String → Except SecretsManagerException Dict

/-- The loop body of `fetch` (lines 92-94), iterated over the remaining
declared names.  Each iteration runs
`self._secrets[n].clear()` and then
`self._secrets[n].update(self._get_secrets(n))`:
the clear happens before the remote call, so when `_get_secrets` raises the
bundle is already empty.  The propagated exception is returned alongside the
state the object is left in. -/
def fetchGo (store : Store) (sm : SecretsManager) :
    List String → SecretsManager × Option SecretsManagerException
  | [] => (sm, Option.none)
  | n :: rest =>
      let cleared : SecretsManager :=
        { sm with _secrets := mapBundle sm._secrets n (fun _ => []) }
      match store n with
      | Except.error e => (cleared, Option.some e)
      | Except.ok d =>
          fetchGo store
            { cleared with
              _secrets := mapBundle cleared._secrets n (fun old => dictUpdate old d) }
            rest

/-- `SecretsManager.fetch` (lines 88-94): iterate the loop body over
`self.secret_names` in declaration order. -/
def SecretsManager.fetch (sm : SecretsManager) (store : Store) :
    SecretsManager × Option SecretsManagerException :=
  fetchGo store sm sm.secret_names

/-- The single transport call `update` makes:
`self._client.update_secret(SecretId=secret_name, SecretString=json.dumps(...))`.
The payload field records the mapping handed to `json.dumps`; the JSON
rendering itself is the stdlib collaborator. -/
structure UpdateSecretCall where
  secretId : String
  payload : Dict
deriving DecidableEq

/-- `SecretsManager.update` (lines 96-101): look up the named bundle
(`self._secrets[secret_name]`, raising `KeyError` for an undeclared name)
and push exactly that mapping; the local state is not touched, so the
resulting manager is returned unchanged alongside the emitted call. -/
def SecretsManager.update (sm : SecretsManager) (secret_name : String) :
    Except String (SecretsManager × UpdateSecretCall) :=
  match lookupBundle sm._secrets secret_name with
  | Option.none => Except.error secret_name
  | Option.some d => Except.ok (sm, { secretId := secret_name, payload := d })

/-- Spec-side precedence scan (§4.1): "to resolve a key, scan declared names
from last to first; return the value from the first bundle (in that reverse
scan) that contains the key".  `specScan` walks a name list, `specResolve`
applies it to the declared names reversed. -/
def specScan (ss : List (String × Dict)) (k : String) : List String → Option Value
  | [] => Option.none
  | n :: rest =>
      match lookupBundle ss n with
      | Option.some d =>
          match dictLookup d k with
          | Option.some v => Option.some v
          | Option.none => specScan ss k rest
      | Option.none => specScan ss k rest

/-- The spec's merged-view resolution: value of the bundle declared last
among those containing the key. -/
def specResolve (sm : SecretsManager) (k : String) : Option Value :=
  specScan sm._secrets k sm.secret_names.reverse

/-- Side condition for the local-write claim, as an executable check: no
bundle named in `post` contains the key `x`. -/
def postFree (ss : List (String × Dict)) (x : String) (post : List String) : Bool :=
  post.all (fun n =>
    match lookupBundle ss n with
    | Option.some dn => (dictLookup dn x).isNone
    | Option.none => true)

/-- Concrete manager for witnesses: the spec §8 scenario
`base = ("a": "1", "b": "2")`, `override = ("b": "3")`, declared as
`["base", "override"]`. -/
def smScenario : SecretsManager :=
  { secret_names := ["base", "override"]
    _secrets :=
      [("base", [("a", Value.str "1"), ("b", Value.str "2")]),
       ("override", [("b", Value.str "3")])] }

/-- Concrete manager for witnesses: a single declared name with an empty
bundle, as `SecretsManager.init` produces. -/
def smEmpty : SecretsManager := SecretsManager.init ["alpha"]

/-- Concrete manager for the fetch counterexample: one declared bundle
already holding a locally-set key. -/
def smLocal : SecretsManager :=
  { secret_names := ["alpha"]
    _secrets := [("alpha", [("k", Value.str "v")])] }

/-- Concrete store for the fetch counterexample: every request fails. -/
def storeFailing : Store :=
  fun _ => Except.error (SecretsManagerException.fromCode "InternalServiceError")

/-- Concrete manager with three declared names, as `__init__` builds it. -/
def smThree : SecretsManager := SecretsManager.init ["a", "b", "c"]

/-- Concrete store that succeeds on "a" and fails on everything else. -/
def storeMid : Store := fun n =>
  if n = "a" then Except.ok [("x", Value.str "1")]
  else Except.error (SecretsManagerException.fromCode "ResourceNotFoundException")

/-- Concrete store that always succeeds with one remote entry. -/
def storeOk : Store := fun _ => Except.ok [("r", Value.str "z")]

/-- Concrete manager holding text-typed entries for the casting claim. -/
def smTyped : SecretsManager :=
  { secret_names := ["cfg"]
    _secrets := [("cfg", [("flag", Value.str "true"), ("n", Value.str "42")])] }

/-! ### Helper lemmas -/

theorem mem_pyDedupAux (seen l : List String) (a : String) :
    a ∈ pyDedupAux seen l ↔ a ∈ l ∧ a ∉ seen := by
  induction l generalizing seen with
  | nil => simp [pyDedupAux]
  | cons b l ih =>
      by_cases hb : b ∈ seen
      · rw [pyDedupAux, if_pos hb, ih]
        constructor
        · rintro ⟨h1, h2⟩
          exact ⟨List.mem_cons_of_mem _ h1, h2⟩
        · rintro ⟨h1, h2⟩
          rcases List.mem_cons.mp h1 with rfl | h1
          · exact absurd hb h2
          · exact ⟨h1, h2⟩
      · rw [pyDedupAux, if_neg hb]
        constructor
        · intro h
          rcases List.mem_cons.mp h with rfl | h
          · exact ⟨List.mem_cons_self a l, hb⟩
          · rcases (ih (b :: seen)).mp h with ⟨h1, h2⟩
            exact ⟨List.mem_cons_of_mem _ h1, fun hc => h2 (List.mem_cons_of_mem _ hc)⟩
        · rintro ⟨h1, h2⟩
          rcases List.mem_cons.mp h1 with rfl | h1
          · exact List.mem_cons_self a _
          · by_cases hba : a = b
            · rw [hba]
              exact List.mem_cons_self b _
            · refine List.mem_cons_of_mem _ ((ih (b :: seen)).mpr ⟨h1, ?_⟩)
              intro hc
              rcases List.mem_cons.mp hc with h3 | h3
              · exact hba h3
              · exact h2 h3

theorem mem_pyDedup (l : List String) (a : String) : a ∈ pyDedup l ↔ a ∈ l := by
  simp [pyDedup, mem_pyDedupAux]

theorem pyDedupAux_of_disjoint (l seen : List String) (hd : ∀ a ∈ l, a ∉ seen)
    (hl : l.Nodup) : pyDedupAux seen l = l := by
  induction l generalizing seen with
  | nil => rfl
  | cons b l ih =>
      have hb : b ∉ seen := hd b (List.mem_cons_self b l)
      rw [pyDedupAux, if_neg hb]
      congr 1
      refine ih (b :: seen) ?_ (List.Nodup.of_cons hl)
      intro a ha
      simp only [List.mem_cons]
      rintro (rfl | hs)
      · exact (List.nodup_cons.mp hl).1 ha
      · exact hd a (List.mem_cons_of_mem _ ha) hs

theorem pyDedup_of_nodup (l : List String) (hl : l.Nodup) : pyDedup l = l :=
  pyDedupAux_of_disjoint l [] (by simp) hl

theorem lookupBundle_eq_none_iff (ss : List (String × Dict)) (n : String) :
    lookupBundle ss n = Option.none ↔ n ∉ ss.map Prod.fst := by
  induction ss with
  | nil => simp [lookupBundle]
  | cons p rest ih =>
      rw [lookupBundle]
      by_cases h : p.1 = n
      · simp [h]
      · simp [h, ih, Ne.symm h]

theorem lookupBundle_isSome_iff (ss : List (String × Dict)) (n : String) :
    (lookupBundle ss n).isSome = true ↔ n ∈ ss.map Prod.fst := by
  rw [← Decidable.not_iff_not, ← lookupBundle_eq_none_iff]
  cases lookupBundle ss n <;> simp

theorem lookupBundle_mapBundle_self (ss : List (String × Dict)) (n : String)
    (f : Dict → Dict) :
    lookupBundle (mapBundle ss n f) n = (lookupBundle ss n).map f := by
  induction ss with
  | nil => rfl
  | cons p rest ih =>
      rcases p with ⟨pn, pd⟩
      by_cases h : pn = n
      · simp [mapBundle, lookupBundle, h]
      · simp [mapBundle, lookupBundle, h, ih]

theorem lookupBundle_mapBundle_ne (ss : List (String × Dict)) (n m : String)
    (f : Dict → Dict) (h : n ≠ m) :
    lookupBundle (mapBundle ss n f) m = lookupBundle ss m := by
  induction ss with
  | nil => rfl
  | cons p rest ih =>
      rcases p with ⟨pn, pd⟩
      by_cases hn : pn = n
      · have hm : pn ≠ m := by
          rw [hn]
          exact h
        simp [mapBundle, lookupBundle, hn, hm, h, ih]
      · by_cases hm : pn = m
        · simp [mapBundle, lookupBundle, hn, hm, Ne.symm h]
        · simp [mapBundle, lookupBundle, hn, hm, ih]

theorem mapBundle_keys (ss : List (String × Dict)) (n : String) (f : Dict → Dict) :
    (mapBundle ss n f).map Prod.fst = ss.map Prod.fst := by
  induction ss with
  | nil => rfl
  | cons p rest ih =>
      rcases p with ⟨pn, pd⟩
      by_cases h : pn = n <;> simp [mapBundle, h, ih]

theorem lookupBundle_append_of_mem (ts us : List (String × Dict)) (n : String)
    (h : n ∈ ts.map Prod.fst) :
    lookupBundle (ts ++ us) n = lookupBundle ts n := by
  induction ts with
  | nil => simp at h
  | cons p rest ih =>
      rcases p with ⟨pn, pd⟩
      by_cases hp : pn = n
      · simp [lookupBundle, hp]
      · have h2 : n ∈ rest.map Prod.fst := by
          rcases List.mem_cons.mp h with h1 | h1
          · exact absurd h1.symm hp
          · exact h1
        simp [lookupBundle, hp, ih h2]

theorem lookupBundle_append_of_not_mem (ts us : List (String × Dict)) (n : String)
    (h : n ∉ ts.map Prod.fst) :
    lookupBundle (ts ++ us) n = lookupBundle us n := by
  induction ts with
  | nil => rfl
  | cons p rest ih =>
      rcases p with ⟨pn, pd⟩
      have hp : pn ≠ n := by
        intro hc
        exact h (by simp [hc])
      have h2 : n ∉ rest.map Prod.fst := by
        intro hc
        exact h (by simp [hc])
      simp [lookupBundle, hp, ih h2]

theorem specScan_append_bundles (ts us : List (String × Dict)) (k : String)
    (ns : List String) (h : ∀ m ∈ ns, m ∈ ts.map Prod.fst) :
    specScan (ts ++ us) k ns = specScan ts k ns := by
  induction ns with
  | nil => rfl
  | cons n rest ih =>
      have hn : n ∈ ts.map Prod.fst := h n (List.mem_cons_self n rest)
      have hr : ∀ m ∈ rest, m ∈ ts.map Prod.fst :=
        fun m hm => h m (List.mem_cons_of_mem _ hm)
      rw [specScan, specScan, lookupBundle_append_of_mem ts us n hn, ih hr]

/-- Core precedence equivalence: on an association list with distinct keys,
the ChainMap-over-reversed-values lookup agrees with the spec's scan of the
declared names from last to first. -/
theorem chainLookup_eq_specScan (ss : List (String × Dict)) (k : String)
    (hnd : (ss.map Prod.fst).Nodup) :
    chainLookup (ss.map Prod.snd).reverse k = specScan ss k (ss.map Prod.fst).reverse := by
  induction ss using List.reverseRecOn with
  | nil => rfl
  | append_singleton ts p ih =>
      rcases p with ⟨n, d⟩
      have hkeys : (ts ++ [(n, d)]).map Prod.fst = ts.map Prod.fst ++ [n] := by
        simp
      rw [hkeys] at hnd
      have hnd2 : (ts.map Prod.fst).Nodup ∧ n ∉ ts.map Prod.fst := by
        rcases List.nodup_append.mp hnd with ⟨h1, _, h3⟩
        exact ⟨h1, fun hc => h3 hc (List.mem_singleton_self n)⟩
      have hvals : ((ts ++ [(n, d)]).map Prod.snd).reverse
          = d :: (ts.map Prod.snd).reverse := by
        simp
      have hnames : ((ts ++ [(n, d)]).map Prod.fst).reverse
          = n :: (ts.map Prod.fst).reverse := by
        simp
      have hself : lookupBundle (ts ++ [(n, d)]) n = Option.some d := by
        rw [lookupBundle_append_of_not_mem ts [(n, d)] n hnd2.2]
        simp [lookupBundle]
      rw [hvals, hnames, chainLookup, specScan, hself]
      cases h : dictLookup d k with
      | some v =>
          show Option.some v
              = match dictLookup d k with
                | Option.some w => Option.some w
                | Option.none => specScan (ts ++ [(n, d)]) k (ts.map Prod.fst).reverse
          rw [h]
      | none =>
          show chainLookup (ts.map Prod.snd).reverse k
              = match dictLookup d k with
                | Option.some w => Option.some w
                | Option.none => specScan (ts ++ [(n, d)]) k (ts.map Prod.fst).reverse
          rw [h, specScan_append_bundles ts [(n, d)] k (ts.map Prod.fst).reverse
            (fun m hm => List.mem_reverse.mp hm)]
          exact ih hnd2.1

/-- Under well-formedness and distinct declared names, the live ChainMap
lookup realizes exactly the spec's precedence resolution. -/
theorem combined_eq_specResolve (sm : SecretsManager) (hwf : sm.wf)
    (hnd : sm.secret_names.Nodup) (k : String) :
    sm.combined k = specResolve sm k := by
  have hkeys : sm._secrets.map Prod.fst = sm.secret_names := by
    rw [hwf, pyDedup_of_nodup sm.secret_names hnd]
  have hknd : (sm._secrets.map Prod.fst).Nodup := by
    rw [hkeys]
    exact hnd
  rw [SecretsManager.combined, specResolve, chainLookup_eq_specScan sm._secrets k hknd,
    hkeys]

theorem dictLookup_dictInsert_self (d : Dict) (k : String) (v : Value) :
    dictLookup (dictInsert d k v) k = Option.some v := by
  induction d with
  | nil => simp [dictInsert, dictLookup]
  | cons p rest ih =>
      rcases p with ⟨pk, pv⟩
      by_cases h : pk = k
      · simp [dictInsert, dictLookup, h]
      · simp [dictInsert, dictLookup, h, ih]

theorem specScan_skip (ss : List (String × Dict)) (k : String) (ns1 ns2 : List String)
    (h : ∀ n ∈ ns1, ∀ dn, lookupBundle ss n = Option.some dn →
      dictLookup dn k = Option.none) :
    specScan ss k (ns1 ++ ns2) = specScan ss k ns2 := by
  induction ns1 with
  | nil => rfl
  | cons n rest ih =>
      have hrest : ∀ m ∈ rest, ∀ dn, lookupBundle ss m = Option.some dn →
          dictLookup dn k = Option.none :=
        fun m hm => h m (List.mem_cons_of_mem _ hm)
      cases hl : lookupBundle ss n with
      | none =>
          rw [List.cons_append, specScan, hl]
          exact ih hrest
      | some dn =>
          rw [List.cons_append, specScan, hl]
          show (match dictLookup dn k with
            | Option.some w => Option.some w
            | Option.none => specScan ss k (rest ++ ns2)) = specScan ss k ns2
          rw [h n (List.mem_cons_self n rest) dn hl]
          exact ih hrest

/-! ### Claim theorems: lookup with defaults (C2, C3) and undeclared set (C10) -/

/-- Claim C2 counterexample: the claim quantifies over every default other
than the sentinel, but the code tests `isinstance(default, Null)` rather
than identity with the module singleton `null`.  A second `Null()` instance
(`nullInst 1`) is a value other than the sentinel (`nullInst 0`), yet
`get` raises instead of returning it. -/
theorem get_default_null_instance_cex :
    Value.nullInst 1 ≠ Value.nullInst 0 ∧
    smEmpty.combined "x" = Option.none ∧
    smEmpty.get "x" (Value.nullInst 1) CastType.text ≠ Except.ok (Value.nullInst 1) := by
  decide

/-- Claim C2 (amended): for every key absent from the merged view and every
default that is not an instance of the `Null` class (Python `None`
included), `get` returns exactly that default with no cast applied. -/
theorem get_default_returned_uncast (sm : SecretsManager) (K : String) (D : Value)
    (ct : CastType) (habsent : sm.combined K = Option.none)
    (hD : isNullInstance D = false) :
    sm.get K D ct = Except.ok D := by
  simp [SecretsManager.get, habsent, hD]

/-- Claim C2 witness: on a manager with one empty bundle, looking up an
absent key with default Python `None` returns `None` itself. -/
theorem get_default_returned_uncast_witness :
    smEmpty.combined "x" = Option.none ∧ isNullInstance Value.pyNone = false ∧
    smEmpty.get "x" Value.pyNone CastType.text = Except.ok Value.pyNone :=
  ⟨by decide, by decide,
    get_default_returned_uncast smEmpty "x" Value.pyNone CastType.text
      (by decide) (by decide)⟩

/-- Claim C3: for a key absent from the merged view and the default left as
the sentinel, `get` raises the `KeyError` carrying the key and the hint to
check the remote store, and in particular never returns the sentinel. -/
theorem get_absent_sentinel_raises (sm : SecretsManager) (K : String) (ct : CastType)
    (habsent : sm.combined K = Option.none) :
    sm.get K (Value.nullInst 0) ct
      = Except.error (GetError.keyNotFound K missingKeyHint) ∧
    sm.get K (Value.nullInst 0) ct ≠ Except.ok (Value.nullInst 0) := by
  have h1 : sm.get K (Value.nullInst 0) ct
      = Except.error (GetError.keyNotFound K missingKeyHint) := by
    simp [SecretsManager.get, habsent, isNullInstance]
  exact ⟨h1, by rw [h1]; exact fun hc => Except.noConfusion hc⟩

/-- Claim C3 witness: concrete instance on a manager with one empty
bundle. -/
theorem get_absent_sentinel_raises_witness :
    smEmpty.combined "x" = Option.none ∧
    (smEmpty.get "x" (Value.nullInst 0) CastType.text
       = Except.error (GetError.keyNotFound "x" missingKeyHint) ∧
     smEmpty.get "x" (Value.nullInst 0) CastType.text
       ≠ Except.ok (Value.nullInst 0)) :=
  ⟨by decide, get_absent_sentinel_raises smEmpty "x" CastType.text (by decide)⟩

/-- Claim C10: `set` on a secret name that was not declared at construction
raises `KeyError` with that name.  The subscript `self._secrets[secret_name]`
fails before any assignment, so the error path carries no modified state:
no bundle is created or changed and the merged view is untouched. -/
theorem set_undeclared_raises (sm : SecretsManager) (name key : String) (v : Value)
    (hwf : sm.wf) (h : name ∉ sm.secret_names) :
    sm.set name key v = Except.error name := by
  have hnone : lookupBundle sm._secrets name = Option.none := by
    rw [lookupBundle_eq_none_iff, hwf, mem_pyDedup]
    exact h
  simp [SecretsManager.set, hnone]

/-- Claim C10 witness: setting under an undeclared name on the two-bundle
scenario manager raises with that name. -/
theorem set_undeclared_raises_witness :
    smScenario.wf ∧ "nope" ∉ smScenario.secret_names ∧
    smScenario.set "nope" "k" (Value.str "v") = Except.error "nope" :=
  ⟨by decide, by decide,
    set_undeclared_raises smScenario "nope" "k" (Value.str "v")
      (by decide) (by decide)⟩

/-! ### Fetch lemmas -/

theorem fetchGo_secret_names (store : Store) (sm : SecretsManager) (ns : List String) :
    (fetchGo store sm ns).1.secret_names = sm.secret_names := by
  induction ns generalizing sm with
  | nil => rfl
  | cons m rest ih =>
      cases hs : store m with
      | error e => simp only [fetchGo, hs]
      | ok d =>
          simp only [fetchGo, hs]
          exact ih _

theorem fetchGo_keys (store : Store) (sm : SecretsManager) (ns : List String) :
    (fetchGo store sm ns).1._secrets.map Prod.fst = sm._secrets.map Prod.fst := by
  induction ns generalizing sm with
  | nil => rfl
  | cons m rest ih =>
      cases hs : store m with
      | error e =>
          simp only [fetchGo, hs]
          exact mapBundle_keys _ _ _
      | ok d =>
          simp only [fetchGo, hs]
          rw [ih]
          rw [mapBundle_keys, mapBundle_keys]

theorem fetchGo_untouched (store : Store) (sm : SecretsManager) (ns : List String)
    (n : String) (h : n ∉ ns) :
    lookupBundle (fetchGo store sm ns).1._secrets n = lookupBundle sm._secrets n := by
  induction ns generalizing sm with
  | nil => rfl
  | cons m rest ih =>
      have hm : m ≠ n := fun hc => h (hc ▸ List.mem_cons_self m rest)
      have hr : n ∉ rest := fun hc => h (List.mem_cons_of_mem _ hc)
      cases hs : store m with
      | error e =>
          simp only [fetchGo, hs]
          exact lookupBundle_mapBundle_ne _ _ _ _ hm
      | ok d =>
          simp only [fetchGo, hs]
          rw [ih _ hr, lookupBundle_mapBundle_ne _ _ _ _ hm,
            lookupBundle_mapBundle_ne _ _ _ _ hm]

theorem fetchGo_all_ok (store : Store) (sm : SecretsManager) (ns : List String)
    (h : ns.all (fun n => (store n).isOk) = true) :
    (fetchGo store sm ns).2 = Option.none := by
  induction ns generalizing sm with
  | nil => rfl
  | cons m rest ih =>
      have hall := List.all_eq_true.mp h
      have hrest : rest.all (fun n => (store n).isOk) = true :=
        List.all_eq_true.mpr (fun n hn => hall n (List.mem_cons_of_mem _ hn))
      cases hs : store m with
      | error e =>
          have := hall m (List.mem_cons_self m rest)
          rw [hs] at this
          exact absurd this (by simp [Except.isOk, Except.toBool])
      | ok d =>
          simp only [fetchGo, hs]
          exact ih _ hrest

theorem fetchGo_append_ok (store : Store) (sm : SecretsManager) (ns1 ns2 : List String)
    (h : ns1.all (fun n => (store n).isOk) = true) :
    fetchGo store sm (ns1 ++ ns2) = fetchGo store (fetchGo store sm ns1).1 ns2 := by
  induction ns1 generalizing sm with
  | nil => rfl
  | cons m rest ih =>
      have hall := List.all_eq_true.mp h
      have hrest : rest.all (fun n => (store n).isOk) = true :=
        List.all_eq_true.mpr (fun n hn => hall n (List.mem_cons_of_mem _ hn))
      cases hs : store m with
      | error e =>
          have := hall m (List.mem_cons_self m rest)
          rw [hs] at this
          exact absurd this (by simp [Except.isOk, Except.toBool])
      | ok d =>
          rw [List.cons_append]
          simp only [fetchGo, hs]
          exact ih _ hrest

theorem fetchGo_fetched (store : Store) (ns : List String) (sm : SecretsManager)
    (hnd : ns.Nodup) (h : ns.all (fun n => (store n).isOk) = true)
    (n : String) (hn : n ∈ ns) (d : Dict) (hd : store n = Except.ok d)
    (hmem : n ∈ sm._secrets.map Prod.fst) :
    lookupBundle (fetchGo store sm ns).1._secrets n = Option.some (dictUpdate [] d) := by
  induction ns generalizing sm with
  | nil => cases hn
  | cons m rest ih =>
      have hall := List.all_eq_true.mp h
      have hrest : rest.all (fun k => (store k).isOk) = true :=
        List.all_eq_true.mpr (fun k hk => hall k (List.mem_cons_of_mem _ hk))
      cases hs : store m with
      | error e =>
          have := hall m (List.mem_cons_self m rest)
          rw [hs] at this
          exact absurd this (by simp [Except.isOk, Except.toBool])
      | ok dm =>
          simp only [fetchGo, hs]
          rcases List.mem_cons.mp hn with rfl | hn2
          · have hdm : dm = d := by
              rw [hs] at hd
              injection hd
            have hnr : n ∉ rest := (List.nodup_cons.mp hnd).1
            rw [fetchGo_untouched store _ rest n hnr,
              lookupBundle_mapBundle_self, lookupBundle_mapBundle_self]
            rcases Option.isSome_iff_exists.mp
              ((lookupBundle_isSome_iff sm._secrets n).mpr hmem) with ⟨d0, hd0⟩
            rw [hd0, hdm]
            rfl
          · have hmem2 : n ∈
                (mapBundle (mapBundle sm._secrets m (fun _ => [])) m
                  (fun old => dictUpdate old dm)).map Prod.fst := by
              rw [mapBundle_keys, mapBundle_keys]
              exact hmem
            exact ih _ (List.Nodup.of_cons hnd) hrest hn2 hmem2

theorem dictInsert_append_of_not_mem (acc : Dict) (k : String) (v : Value)
    (h : k ∉ acc.map Prod.fst) :
    dictInsert acc k v = acc ++ [(k, v)] := by
  induction acc with
  | nil => rfl
  | cons p rest ih =>
      rcases p with ⟨pk, pv⟩
      have hpk : pk ≠ k := by
        intro hc
        exact h (by simp [hc])
      have h2 : k ∉ rest.map Prod.fst := by
        intro hc
        exact h (by simp [hc])
      simp [dictInsert, hpk, ih h2]

theorem dictUpdate_eq_append (d acc : Dict)
    (h : ((acc ++ d).map Prod.fst).Nodup) :
    dictUpdate acc d = acc ++ d := by
  induction d generalizing acc with
  | nil => simp [dictUpdate]
  | cons p rest ih =>
      rcases p with ⟨k, v⟩
      have hmap : (acc ++ (k, v) :: rest).map Prod.fst
          = acc.map Prod.fst ++ k :: rest.map Prod.fst := by
        simp
      rw [hmap] at h
      have hk : k ∉ acc.map Prod.fst := by
        intro hc
        rcases List.nodup_append.mp h with ⟨_, h2, h3⟩
        exact h3 hc (List.mem_cons_self k _)
      have hstep : dictUpdate acc ((k, v) :: rest) = dictUpdate (dictInsert acc k v) rest := by
        rfl
      rw [hstep, dictInsert_append_of_not_mem acc k v hk]
      have h4 : (((acc ++ [(k, v)]) ++ rest).map Prod.fst).Nodup := by
        rw [List.append_assoc]
        have : ((acc ++ ((k, v) :: rest)).map Prod.fst).Nodup := by
          rw [hmap]
          exact h
        simpa using this
      rw [ih (acc ++ [(k, v)]) h4, List.append_assoc]
      rfl

theorem dictUpdate_nil_of_nodup (d : Dict) (h : (d.map Prod.fst).Nodup) :
    dictUpdate [] d = d := by
  have := dictUpdate_eq_append d [] (by simpa using h)
  simpa using this

/-! ### Claim theorems: precedence (C1) and local-write visibility (C8) -/

/-- Claim C1: for every key resolvable in the declared bundles (with
distinct declared names, duplicates being a caller error per spec §4.1),
`get` returns the value from the bundle declared last among those containing
the key — the spec-side scan `specResolve` — cast to the requested shape;
for a key present in exactly one bundle this is that bundle's value. -/
theorem get_precedence_law (sm : SecretsManager) (hwf : sm.wf)
    (hnd : sm.secret_names.Nodup) (K : String) (v : Value)
    (hres : specResolve sm K = Option.some v) (D : Value) (ct : CastType) :
    sm.get K D ct = castResult (cast v ct) := by
  have hc : sm.combined K = Option.some v := by
    rw [combined_eq_specResolve sm hwf hnd K, hres]
  simp [SecretsManager.get, hc]

/-- Claim C1 witness: in the spec §8 scenario the key "b" lives in both
bundles and resolves to the last-declared bundle's value "3". -/
theorem get_precedence_law_witness :
    smScenario.wf ∧ smScenario.secret_names.Nodup ∧
    specResolve smScenario "b" = Option.some (Value.str "3") ∧
    smScenario.get "b" (Value.nullInst 0) CastType.text
      = castResult (cast (Value.str "3") CastType.text) :=
  ⟨by decide, by decide, by decide,
    get_precedence_law smScenario (by decide) (by decide) "b" (Value.str "3")
      (by decide) (Value.nullInst 0) CastType.text⟩

/-- Claim C8: local-write visibility.  After `set B x v` (no fetch in
between), when `B` is the highest-precedence bundle containing `x` — no
bundle declared after `B` contains `x` — `get x` returns `v` cast to the
requested shape.  The merged view is live: the `set` mutation is visible
without any re-merge. -/
theorem set_local_write_visible (sm : SecretsManager) (hwf : sm.wf)
    (hnd : sm.secret_names.Nodup) (B x : String) (v : Value)
    (front post : List String) (hsplit : sm.secret_names = front ++ B :: post)
    (hafter : postFree sm._secrets x post = true)
    (sm' : SecretsManager) (hset : sm.set B x v = Except.ok sm')
    (D : Value) (ct : CastType) :
    sm'.get x D ct = castResult (cast v ct) := by
  have hkeys : sm._secrets.map Prod.fst = sm.secret_names := by
    rw [hwf, pyDedup_of_nodup sm.secret_names hnd]
  have hBmem : B ∈ sm.secret_names := by
    rw [hsplit]
    exact List.mem_append_right _ (List.mem_cons_self B post)
  have hBsome : (lookupBundle sm._secrets B).isSome = true := by
    rw [lookupBundle_isSome_iff, hkeys]
    exact hBmem
  rcases Option.isSome_iff_exists.mp hBsome with ⟨dB, hB⟩
  simp only [SecretsManager.set, hB, Except.ok.injEq] at hset
  have hset2 : sm'
      = { sm with _secrets := mapBundle sm._secrets B (fun d => dictInsert d x v) } :=
    hset.symm
  have hpost : B ∉ post := by
    have hnd2 := hnd
    rw [hsplit] at hnd2
    exact (List.nodup_cons.mp hnd2.of_append_right).1
  have hwf' : sm'.wf := by
    rw [hset2]
    show (mapBundle sm._secrets B (fun d => dictInsert d x v)).map Prod.fst
        = pyDedup sm.secret_names
    rw [mapBundle_keys]
    exact hwf
  have hnd' : sm'.secret_names.Nodup := by
    rw [hset2]
    exact hnd
  have hrev : sm.secret_names.reverse = post.reverse ++ B :: front.reverse := by
    rw [hsplit]
    simp
  have hafter2 : ∀ n ∈ post,
      (match lookupBundle sm._secrets n with
        | Option.some dn => (dictLookup dn x).isNone
        | Option.none => true) = true := by
    intro n hn
    exact List.all_eq_true.mp hafter n hn
  have hskip : ∀ n ∈ post.reverse, ∀ dn,
      lookupBundle (mapBundle sm._secrets B (fun d => dictInsert d x v)) n
        = Option.some dn →
      dictLookup dn x = Option.none := by
    intro n hn dn hdn
    have hnp : n ∈ post := List.mem_reverse.mp hn
    have hBn : B ≠ n := fun hc => hpost (hc ▸ hnp)
    rw [lookupBundle_mapBundle_ne sm._secrets B n _ hBn] at hdn
    have h1 := hafter2 n hnp
    have h2 : (dictLookup dn x).isNone = true := by
      rw [hdn] at h1
      exact h1
    exact Option.isNone_iff_eq_none.mp h2
  have hres : specResolve sm' x = Option.some v := by
    rw [hset2]
    show specScan (mapBundle sm._secrets B (fun d => dictInsert d x v)) x
        sm.secret_names.reverse = Option.some v
    rw [hrev, specScan_skip _ _ _ _ hskip]
    have hB' : lookupBundle (mapBundle sm._secrets B (fun d => dictInsert d x v)) B
        = Option.some (dictInsert dB x v) := by
      rw [lookupBundle_mapBundle_self, hB]
      rfl
    rw [specScan, hB']
    show (match dictLookup (dictInsert dB x v) x with
      | Option.some w => Option.some w
      | Option.none =>
          specScan (mapBundle sm._secrets B (fun d => dictInsert d x v)) x
            front.reverse) = Option.some v
    rw [dictLookup_dictInsert_self]
  have hcomb : sm'.combined x = Option.some v := by
    rw [combined_eq_specResolve sm' hwf' hnd' x, hres]
  simp [SecretsManager.get, hcomb]

/-- Claim C8 witness: on the spec §8 scenario, setting "c" in "override"
(the last-declared bundle) and reading it back immediately yields the value
cast to the requested shape, with no fetch in between. -/
theorem set_local_write_visible_witness :
    smScenario.wf ∧ smScenario.secret_names.Nodup ∧
    smScenario.secret_names = ["base"] ++ "override" :: [] ∧
    postFree smScenario._secrets "c" [] = true ∧
    smScenario.set "override" "c" (Value.int 7)
      = Except.ok
          { secret_names := ["base", "override"]
            _secrets :=
              [("base", [("a", Value.str "1"), ("b", Value.str "2")]),
               ("override", [("b", Value.str "3"), ("c", Value.int 7)])] } ∧
    SecretsManager.get
        { secret_names := ["base", "override"]
          _secrets :=
            [("base", [("a", Value.str "1"), ("b", Value.str "2")]),
             ("override", [("b", Value.str "3"), ("c", Value.int 7)])] }
        "c" (Value.nullInst 0) CastType.integer
      = castResult (cast (Value.int 7) CastType.integer) :=
  ⟨by decide, by decide, by decide, by decide, by decide,
    set_local_write_visible smScenario (by decide) (by decide) "override" "c"
      (Value.int 7) ["base"] [] (by decide) (by decide) _ (by decide)
      (Value.nullInst 0) CastType.integer⟩

/-! ### Claim theorems: fetch lifecycle (C4, C5, C6) -/

/-- Shared description of the state after a fetch that fails at bundle `N`:
the loop aborts with the mapped exception; bundles declared before `N` hold
their newly fetched contents; bundles declared after `N` are untouched; and
bundle `N` itself is left cleared, because line 93 clears it before the
remote call of line 94 raises. -/
theorem fetch_fail_parts (sm : SecretsManager) (store : Store) (hwf : sm.wf)
    (hnd : sm.secret_names.Nodup) (pre post : List String) (N : String)
    (e : SecretsManagerException)
    (hsplit : sm.secret_names = pre ++ N :: post)
    (hpre : pre.all (fun n => (store n).isOk) = true)
    (hN : store N = Except.error e) :
    (sm.fetch store).2 = Option.some e ∧
    (∀ n ∈ pre, ∀ d, store n = Except.ok d →
      lookupBundle (sm.fetch store).1._secrets n = Option.some (dictUpdate [] d)) ∧
    (∀ n ∈ post,
      lookupBundle (sm.fetch store).1._secrets n = lookupBundle sm._secrets n) ∧
    lookupBundle (sm.fetch store).1._secrets N = Option.some [] := by
  have hkeys : sm._secrets.map Prod.fst = sm.secret_names := by
    rw [hwf, pyDedup_of_nodup sm.secret_names hnd]
  have hnd2 := hnd
  rw [hsplit] at hnd2
  have hpreNodup : pre.Nodup := hnd2.of_append_left
  have hdisj := (List.nodup_append.mp hnd2).2.2
  have hNpre : N ∉ pre := fun hc => hdisj hc (List.mem_cons_self N post)
  have hNpost : N ∉ post := (List.nodup_cons.mp hnd2.of_append_right).1
  have hfetch : sm.fetch store = fetchGo store sm (pre ++ N :: post) := by
    rw [SecretsManager.fetch, hsplit]
  have happ : fetchGo store sm (pre ++ N :: post)
      = fetchGo store (fetchGo store sm pre).1 (N :: post) :=
    fetchGo_append_ok store sm pre (N :: post) hpre
  have hstep : fetchGo store (fetchGo store sm pre).1 (N :: post)
      = ({ (fetchGo store sm pre).1 with
            _secrets := mapBundle (fetchGo store sm pre).1._secrets N (fun _ => []) },
         Option.some e) := by
    simp only [fetchGo, hN]
  rw [hfetch, happ, hstep]
  refine ⟨rfl, ?_, ?_, ?_⟩
  · intro n hn d hd
    have hNn : N ≠ n := fun hc => hNpre (hc ▸ hn)
    show lookupBundle
        (mapBundle (fetchGo store sm pre).1._secrets N (fun _ => [])) n
        = Option.some (dictUpdate [] d)
    rw [lookupBundle_mapBundle_ne _ _ _ _ hNn]
    refine fetchGo_fetched store pre sm hpreNodup hpre n hn d hd ?_
    rw [hkeys, hsplit]
    exact List.mem_append_left _ hn
  · intro n hn
    have hNn : N ≠ n := fun hc => hNpost (hc ▸ hn)
    have hnpre : n ∉ pre := fun hc => hdisj hc (List.mem_cons_of_mem _ hn)
    show lookupBundle
        (mapBundle (fetchGo store sm pre).1._secrets N (fun _ => [])) n
        = lookupBundle sm._secrets n
    rw [lookupBundle_mapBundle_ne _ _ _ _ hNn]
    exact fetchGo_untouched store sm pre n hnpre
  · show lookupBundle
        (mapBundle (fetchGo store sm pre).1._secrets N (fun _ => [])) N
        = Option.some []
    rw [lookupBundle_mapBundle_self]
    have hmemN : N ∈ (fetchGo store sm pre).1._secrets.map Prod.fst := by
      rw [fetchGo_keys, hkeys, hsplit]
      exact List.mem_append_right _ (List.mem_cons_self N post)
    rcases Option.isSome_iff_exists.mp
      ((lookupBundle_isSome_iff _ N).mpr hmemN) with ⟨d0, hd0⟩
    rw [hd0]
    rfl

/-- Claim C4: when fetching bundle `N` fails, the whole operation aborts at
that point — the exception propagates out of `fetch` — while bundles
declared before `N` keep their newly fetched contents (no rollback) and
bundles declared after `N` are not touched. -/
theorem fetch_abort_on_failure (sm : SecretsManager) (store : Store) (hwf : sm.wf)
    (hnd : sm.secret_names.Nodup) (pre post : List String) (N : String)
    (e : SecretsManagerException)
    (hsplit : sm.secret_names = pre ++ N :: post)
    (hpre : pre.all (fun n => (store n).isOk) = true)
    (hN : store N = Except.error e) :
    (sm.fetch store).2 = Option.some e ∧
    (∀ n ∈ pre, ∀ d, store n = Except.ok d →
      lookupBundle (sm.fetch store).1._secrets n = Option.some (dictUpdate [] d)) ∧
    (∀ n ∈ post,
      lookupBundle (sm.fetch store).1._secrets n = lookupBundle sm._secrets n) := by
  rcases fetch_fail_parts sm store hwf hnd pre post N e hsplit hpre hN with
    ⟨h1, h2, h3, _⟩
  exact ⟨h1, h2, h3⟩

/-- Claim C4 witness: names `["a", "b", "c"]`, store succeeding on "a" and
failing on "b": the exception surfaces, "a" holds the fetched contents,
and "c" still holds its original (empty) bundle. -/
theorem fetch_abort_on_failure_witness :
    smThree.wf ∧ smThree.secret_names.Nodup ∧
    smThree.secret_names = ["a"] ++ "b" :: ["c"] ∧
    (["a"].all (fun n => (storeMid n).isOk)) = true ∧
    storeMid "b" = Except.error (SecretsManagerException.fromCode "ResourceNotFoundException") ∧
    (smThree.fetch storeMid).2
      = Option.some (SecretsManagerException.fromCode "ResourceNotFoundException") ∧
    storeMid "a" = Except.ok [("x", Value.str "1")] ∧
    lookupBundle (smThree.fetch storeMid).1._secrets "a"
      = Option.some (dictUpdate [] [("x", Value.str "1")]) ∧
    lookupBundle (smThree.fetch storeMid).1._secrets "c"
      = lookupBundle smThree._secrets "c" :=
  ⟨by decide, by decide, by decide, by decide, by decide,
    (fetch_abort_on_failure smThree storeMid (by decide) (by decide) ["a"] ["c"] "b"
      (SecretsManagerException.fromCode "ResourceNotFoundException")
      (by decide) (by decide) (by decide)).1,
    by decide,
    (fetch_abort_on_failure smThree storeMid (by decide) (by decide) ["a"] ["c"] "b"
      (SecretsManagerException.fromCode "ResourceNotFoundException")
      (by decide) (by decide) (by decide)).2.1 "a" (by decide)
      [("x", Value.str "1")] (by decide),
    (fetch_abort_on_failure smThree storeMid (by decide) (by decide) ["a"] ["c"] "b"
      (SecretsManagerException.fromCode "ResourceNotFoundException")
      (by decide) (by decide) (by decide)).2.2 "c" (by decide)⟩

/-- Claim C5 counterexample: with one declared bundle holding a previous
entry and a store that fails, the failed fetch leaves the bundle cleared —
neither its previous contents nor any repopulated contents (the store never
returned any).  Line 93 clears the bundle before line 94 raises. -/
theorem fetch_atomicity_cex :
    lookupBundle smLocal._secrets "alpha" = Option.some [("k", Value.str "v")] ∧
    (smLocal.fetch storeFailing).2
      = Option.some (SecretsManagerException.fromCode "InternalServiceError") ∧
    lookupBundle (smLocal.fetch storeFailing).1._secrets "alpha" = Option.some [] ∧
    ([] : Dict) ≠ [("k", Value.str "v")] := by
  decide

/-- Claim C5 (amended): if `fetch` fails at bundle `N`, bundles before `N`
are fully repopulated with their fetched contents and bundles after `N`
keep their previous contents, but bundle `N` itself is left cleared
(empty): the code clears a bundle before requesting its remote value, so on
failure `N`'s previous contents are lost. -/
theorem fetch_failure_bundle_states (sm : SecretsManager) (store : Store)
    (hwf : sm.wf) (hnd : sm.secret_names.Nodup) (pre post : List String)
    (N : String) (e : SecretsManagerException)
    (hsplit : sm.secret_names = pre ++ N :: post)
    (hpre : pre.all (fun n => (store n).isOk) = true)
    (hN : store N = Except.error e) :
    (sm.fetch store).2 = Option.some e ∧
    (∀ n ∈ pre, ∀ d, store n = Except.ok d →
      lookupBundle (sm.fetch store).1._secrets n = Option.some (dictUpdate [] d)) ∧
    (∀ n ∈ post,
      lookupBundle (sm.fetch store).1._secrets n = lookupBundle sm._secrets n) ∧
    lookupBundle (sm.fetch store).1._secrets N = Option.some [] :=
  fetch_fail_parts sm store hwf hnd pre post N e hsplit hpre hN

/-- Claim C5 witness: the single-bundle manager with previous contents,
against the always-failing store — the bundle ends up cleared. -/
theorem fetch_failure_bundle_states_witness :
    smLocal.wf ∧ smLocal.secret_names.Nodup ∧
    smLocal.secret_names = [] ++ "alpha" :: [] ∧
    (([] : List String).all (fun n => (storeFailing n).isOk)) = true ∧
    storeFailing "alpha"
      = Except.error (SecretsManagerException.fromCode "InternalServiceError") ∧
    (smLocal.fetch storeFailing).2
      = Option.some (SecretsManagerException.fromCode "InternalServiceError") ∧
    lookupBundle (smLocal.fetch storeFailing).1._secrets "alpha" = Option.some [] :=
  ⟨by decide, by decide, by decide, by decide, by decide,
    (fetch_failure_bundle_states smLocal storeFailing (by decide) (by decide) [] []
      "alpha" (SecretsManagerException.fromCode "InternalServiceError")
      (by decide) (by decide) (by decide)).1,
    (fetch_failure_bundle_states smLocal storeFailing (by decide) (by decide) [] []
      "alpha" (SecretsManagerException.fromCode "InternalServiceError")
      (by decide) (by decide) (by decide)).2.2.2⟩

/-- Claim C6: when every per-bundle fetch succeeds, `fetch` raises nothing
and every declared bundle is cleared and repopulated with exactly the
remotely stored mapping (JSON objects have distinct keys); consequently a
key previously added locally via `set` but absent remotely is gone after
the fetch. -/
theorem fetch_success_repopulates (sm : SecretsManager) (store : Store)
    (hwf : sm.wf) (hnd : sm.secret_names.Nodup)
    (hok : sm.secret_names.all (fun n => (store n).isOk) = true) :
    (sm.fetch store).2 = Option.none ∧
    (∀ n ∈ sm.secret_names, ∀ d, store n = Except.ok d → (d.map Prod.fst).Nodup →
      lookupBundle (sm.fetch store).1._secrets n = Option.some d) ∧
    (∀ n ∈ sm.secret_names, ∀ d, store n = Except.ok d → (d.map Prod.fst).Nodup →
      ∀ k, dictLookup d k = Option.none →
      ∀ b, lookupBundle (sm.fetch store).1._secrets n = Option.some b →
        dictLookup b k = Option.none) := by
  have hkeys : sm._secrets.map Prod.fst = sm.secret_names := by
    rw [hwf, pyDedup_of_nodup sm.secret_names hnd]
  have hmain : ∀ n ∈ sm.secret_names, ∀ d, store n = Except.ok d →
      (d.map Prod.fst).Nodup →
      lookupBundle (sm.fetch store).1._secrets n = Option.some d := by
    intro n hn d hd hkd
    rw [SecretsManager.fetch,
      fetchGo_fetched store sm.secret_names sm hnd hok n hn d hd
        (by rw [hkeys]; exact hn),
      dictUpdate_nil_of_nodup d hkd]
  refine ⟨?_, hmain, ?_⟩
  · rw [SecretsManager.fetch]
    exact fetchGo_all_ok store sm sm.secret_names hok
  · intro n hn d hd hkd k hk b hb
    rw [hmain n hn d hd hkd] at hb
    injection hb with hb2
    rw [← hb2]
    exact hk

/-- Claim C6 witness: the single-bundle manager whose bundle holds a
local-only key "k"; after a successful fetch the bundle equals the remote
mapping and "k" is gone. -/
theorem fetch_success_repopulates_witness :
    smLocal.wf ∧ smLocal.secret_names.Nodup ∧
    (smLocal.secret_names.all (fun n => (storeOk n).isOk)) = true ∧
    (smLocal.fetch storeOk).2 = Option.none ∧
    storeOk "alpha" = Except.ok [("r", Value.str "z")] ∧
    dictLookup [("r", Value.str "z")] "k" = Option.none ∧
    lookupBundle (smLocal.fetch storeOk).1._secrets "alpha"
      = Option.some [("r", Value.str "z")] ∧
    dictLookup [("r", Value.str "z")] "k" = Option.none :=
  ⟨by decide, by decide, by decide,
    (fetch_success_repopulates smLocal storeOk (by decide) (by decide) (by decide)).1,
    by decide, by decide,
    (fetch_success_repopulates smLocal storeOk (by decide) (by decide)
      (by decide)).2.1 "alpha" (by decide) [("r", Value.str "z")] (by decide)
      (by decide),
    (fetch_success_repopulates smLocal storeOk (by decide) (by decide)
      (by decide)).2.2 "alpha" (by decide) [("r", Value.str "z")] (by decide)
      (by decide) "k" (by decide) [("r", Value.str "z")] (by decide)⟩

/-! ### Claim theorems: update frame effect (C7) and casting (C9) -/

/-- Claim C7: `update(name)` serializes and pushes exactly the named
bundle's own mapping — the argument handed to `json.dumps` on line 101 —
under that `SecretId`: not the merged view and not any other bundle's
entries.  The method reads `self._secrets[secret_name]` and performs no
local mutation, so the manager (every bundle and hence the live merged
view) comes back unchanged. -/
theorem update_pushes_own_bundle_only (sm : SecretsManager) (name : String)
    (d : Dict) (h : lookupBundle sm._secrets name = Option.some d) :
    sm.update name = Except.ok (sm, { secretId := name, payload := d }) := by
  simp [SecretsManager.update, h]

/-- Claim C7 witness: on the spec §8 scenario, `update "base"` pushes
base's own two entries — not override's entry "b" ↦ "3" and not the merged
view — and returns the manager unchanged. -/
theorem update_pushes_own_bundle_only_witness :
    lookupBundle smScenario._secrets "base"
      = Option.some [("a", Value.str "1"), ("b", Value.str "2")] ∧
    smScenario.update "base"
      = Except.ok (smScenario,
          { secretId := "base"
            payload := [("a", Value.str "1"), ("b", Value.str "2")] }) :=
  ⟨by decide,
    update_pushes_own_bundle_only smScenario "base"
      [("a", Value.str "1"), ("b", Value.str "2")] (by decide)⟩

/-- Claim C9: casting semantics applied by `get` on found values (the
`cast` collaborator is modelled from spec §4.2, `caster.py` being outside
`src/`): "true" and "0" cast to booleans `true`/`false`, "42" to the
integer 42, "3.14" to the rational 157/50 (= 3.14 exactly); boolean
casting recognizes case-insensitively "true"/"false", "1"/"0", "yes"/"no"
and fails with `CastError` on every string outside the recognition table;
and `get` applies `cast` to found values, shown on a concrete manager. -/
theorem cast_semantics (s : String) (h : boolOfText s = Option.none) :
    cast (Value.str "true") CastType.boolean = Except.ok (Value.bool true) ∧
    cast (Value.str "0") CastType.boolean = Except.ok (Value.bool false) ∧
    cast (Value.str "42") CastType.integer = Except.ok (Value.int 42) ∧
    cast (Value.str "3.14") CastType.float = Except.ok (Value.float (mkRat 157 50)) ∧
    cast (Value.str "TRUE") CastType.boolean = Except.ok (Value.bool true) ∧
    cast (Value.str "False") CastType.boolean = Except.ok (Value.bool false) ∧
    cast (Value.str "1") CastType.boolean = Except.ok (Value.bool true) ∧
    cast (Value.str "YES") CastType.boolean = Except.ok (Value.bool true) ∧
    cast (Value.str "no") CastType.boolean = Except.ok (Value.bool false) ∧
    cast (Value.str s) CastType.boolean = Except.error CastError.castError ∧
    smTyped.get "flag" (Value.nullInst 0) CastType.boolean
      = Except.ok (Value.bool true) ∧
    smTyped.get "n" (Value.nullInst 0) CastType.integer
      = Except.ok (Value.int 42) := by
  refine ⟨by decide, by decide, by decide, by decide, by decide, by decide,
    by decide, by decide, by decide, ?_, by decide, by decide⟩
  show (match boolOfText s with
    | Option.some b => Except.ok (Value.bool b)
    | Option.none => Except.error CastError.castError) = Except.error CastError.castError
  rw [h]

/-- Claim C9 witness: "banana" is outside the recognition table and its
boolean cast fails with `CastError`. -/
theorem cast_semantics_witness :
    boolOfText "banana" = Option.none ∧
    cast (Value.str "banana") CastType.boolean = Except.error CastError.castError :=
  ⟨by decide, (cast_semantics "banana" (by decide)).2.2.2.2.2.2.2.2.2.1⟩

end AwsChainSecrets
